import Mathlib

set_option maxHeartbeats 1000000

/-!
Shallow embedding of the edition-reconciliation and repair-search engine of
`isbn-validation/validate_editions.py`.

Python strings are modelled as `List Char`; Python `None` as `Option.none`.
Network I/O is modelled by passing the decoded provider response (or the
transport failure) as an explicit argument of type `NetOutcome`; the nested
per-work editions fetch of the Open Library search is an oracle function from
work keys to the decoded response.  A raised exception is `Except.error`.
-/

/-! ### Python string primitives -/

/-- Whitespace characters recognised by Python's `str.strip` / regex `\s`. -/
def isSpaceChar (c : Char) : Bool :=
  c == ' ' || c == '\t' || c == '\n' || c == '\r' || c == '\x0b' || c == '\x0c'

/-- The ASCII upper/lower case pairs used by `str.lower` on the data at hand. -/
def upperLower : List (Char × Char) :=
  [('A', 'a'), ('B', 'b'), ('C', 'c'), ('D', 'd'), ('E', 'e'), ('F', 'f'),
   ('G', 'g'), ('H', 'h'), ('I', 'i'), ('J', 'j'), ('K', 'k'), ('L', 'l'),
   ('M', 'm'), ('N', 'n'), ('O', 'o'), ('P', 'p'), ('Q', 'q'), ('R', 'r'),
   ('S', 's'), ('T', 't'), ('U', 'u'), ('V', 'v'), ('W', 'w'), ('X', 'x'),
   ('Y', 'y'), ('Z', 'z')]

/-- Lower-case one character (ASCII model of Python `str.lower`). -/
def lowerChar (c : Char) : Char :=
  match upperLower.find? (fun p => p.1 == c) with
  | some p => p.2
  | none => c

/-- Lower-case a string (`str.lower`). -/
def lowerStr (s : List Char) : List Char := s.map lowerChar

/-- Drop trailing whitespace (the right half of `str.strip`). -/
def stripEnd (s : List Char) : List Char :=
  (s.reverse.dropWhile isSpaceChar).reverse

/-- Python `str.strip`: drop leading and trailing whitespace. -/
def pyStrip (s : List Char) : List Char :=
  stripEnd (s.dropWhile isSpaceChar)

/-- `leadsWith p s` holds when `p` occurs at the very start of `s`. -/
def leadsWith : List Char → List Char → Bool
  | [], _ => true
  | _ :: _, [] => false
  | a :: resta, b :: restb => a == b && leadsWith resta restb

/-- `containsSub p s` is Python's substring test `p in s`. -/
def containsSub : List Char → List Char → Bool
  | p, [] => p.isEmpty
  | p, c :: t => leadsWith p (c :: t) || containsSub p t

/-- Python truthiness of a string-or-None value. -/
def truthy : Option (List Char) → Bool
  | none => false
  | some s => !s.isEmpty

/-- Leftmost maximal run of decimal digits: `re.search(r'\d+', s).group(0)`. -/
def firstDigitRun : List Char → Option (List Char)
  | [] => none
  | c :: t => if c.isDigit then some (c :: t.takeWhile Char.isDigit) else firstDigitRun t

/-! ### Edition normalizer (`normalize_edition`) -/

/-- The `word_to_num` dictionary of `normalize_edition`, in its insertion
(= Python 3.7+ iteration) order. -/
def wordToNum : List (List Char × List Char) :=
  [("first".toList, "1".toList), ("1st".toList, "1".toList),
   ("second".toList, "2".toList), ("2nd".toList, "2".toList),
   ("third".toList, "3".toList), ("3rd".toList, "3".toList),
   ("fourth".toList, "4".toList), ("4th".toList, "4".toList),
   ("fifth".toList, "5".toList), ("5th".toList, "5".toList),
   ("sixth".toList, "6".toList), ("6th".toList, "6".toList),
   ("seventh".toList, "7".toList), ("7th".toList, "7".toList),
   ("eighth".toList, "8".toList), ("8th".toList, "8".toList),
   ("ninth".toList, "9".toList), ("9th".toList, "9".toList),
   ("tenth".toList, "10".toList), ("10th".toList, "10".toList),
   ("eleventh".toList, "11".toList), ("11th".toList, "11".toList),
   ("twelfth".toList, "12".toList), ("12th".toList, "12".toList),
   ("thirteenth".toList, "13".toList), ("13th".toList, "13".toList),
   ("fourteenth".toList, "14".toList), ("14th".toList, "14".toList),
   ("fifteenth".toList, "15".toList), ("15th".toList, "15".toList)]

/-- `normalize_edition(edition_str)`: `None`/empty input gives `None`; else
lower-case and strip, map the first ordinal word of `word_to_num` occurring as
a substring to its digits, else take the leftmost digit run, else recognise
"revised"/"rev", else return the trimmed lower-cased string unchanged. -/
def normalize_edition : Option (List Char) → Option (List Char)
  | none => none
  | some s0 =>
    if s0 = [] then none
    else
      let s := pyStrip (lowerStr s0)
      match wordToNum.find? (fun p => containsSub p.1 s) with
      | some p => some p.2
      | none =>
        match firstDigitRun s with
        | some d => some d
        | none =>
          if containsSub "revised".toList s || containsSub "rev".toList s then
            some ("revised".toList)
          else some s

/-! ### Edition extractor (`extract_edition_from_text`)

Each regex of the source is implemented directly.  In all four patterns every
alternative/iteration is forced (no two alternatives can match at the same
position, and the characters after a greedy `\d+` or `\s+` can never be taken
by the following atom), so the committed-choice matchers below agree with the
backtracking regex semantics of `re.search`. -/

/-- Regex ordinal suffix alternation `(?:st|nd|rd|th)`. -/
def ordSuffixes : List (List Char) := ["st".toList, "nd".toList, "rd".toList, "th".toList]

/-- The spelled-ordinal alternation of pattern (b): note it stops at
"twelfth" in the source. -/
def spelledOrdinals : List (List Char) :=
  ["first".toList, "second".toList, "third".toList, "fourth".toList,
   "fifth".toList, "sixth".toList, "seventh".toList, "eighth".toList,
   "ninth".toList, "tenth".toList, "eleventh".toList, "twelfth".toList]

/-- Try the alternatives in order at the start of `s`; return the remainder
after the first one that occurs there. -/
def anyLeadRest (opts : List (List Char)) (s : List Char) : Option (List Char) :=
  match opts with
  | [] => none
  | o :: os => if leadsWith o s then some (s.drop o.length) else anyLeadRest os s

/-- Like `anyLeadRest` but also return which alternative matched. -/
def anyLeadCap (opts : List (List Char)) (s : List Char) :
    Option (List Char × List Char) :=
  match opts with
  | [] => none
  | o :: os => if leadsWith o s then some (o, s.drop o.length) else anyLeadCap os s

/-- Regex `\s+`: at least one whitespace character, consumed greedily. -/
def spacesThen1 (s : List Char) : Option (List Char) :=
  match s with
  | [] => none
  | c :: t => if isSpaceChar c then some (t.dropWhile isSpaceChar) else none

/-- Shape of patterns (a) and (d): `(\d+)(?:st|nd|rd|th)\s+<lit>` anchored at
the start of `s`; returns the captured digit group. -/
def matchDigitsOrdThen (lit : List Char) (s : List Char) : Option (List Char) :=
  let ds := s.takeWhile Char.isDigit
  if ds = [] then none
  else
    match anyLeadRest ordSuffixes (s.dropWhile Char.isDigit) with
    | none => none
    | some r1 =>
      match spacesThen1 r1 with
      | none => none
      | some r2 => if leadsWith lit r2 then some ds else none

/-- Pattern (a) `(\d+)(?:st|nd|rd|th)\s+edition`. -/
def matchDigitsOrdEdition : List Char → Option (List Char) :=
  matchDigitsOrdThen ("edition".toList)

/-- Pattern (b) `(first|...|twelfth)\s+edition` anchored at the start of `s`;
returns the captured word. -/
def matchSpelledEdition (s : List Char) : Option (List Char) :=
  match anyLeadCap spelledOrdinals s with
  | none => none
  | some (w, r1) =>
    match spacesThen1 r1 with
    | none => none
    | some r2 => if leadsWith "edition".toList r2 then some w else none

/-- Pattern (c) `edition\s+(\d+)` anchored at the start of `s`. -/
def matchEditionDigits (s : List Char) : Option (List Char) :=
  if leadsWith "edition".toList s then
    match spacesThen1 (s.drop 7) with
    | none => none
    | some r1 =>
      let ds := r1.takeWhile Char.isDigit
      if ds = [] then none else some ds
  else none

/-- Pattern (d) `(\d+)(?:st|nd|rd|th)\s+ed\.`. -/
def matchDigitsOrdEdDot : List Char → Option (List Char) :=
  matchDigitsOrdThen ("ed.".toList)

/-- `re.search`: try the anchored matcher at each start position from the
left; the leftmost successful position wins. -/
def scanMatch (m : List Char → Option (List Char)) : List Char → Option (List Char)
  | [] => m []
  | c :: t =>
    match m (c :: t) with
    | some g => some g
    | none => scanMatch m t

/-- `extract_edition_from_text(text)`: lower-case, try the four patterns in
order and normalize the first captured group, else look for a literal
"revised edition" / "revised ed.", else `None`. -/
def extract_edition_from_text : Option (List Char) → Option (List Char)
  | none => none
  | some t0 =>
    if t0 = [] then none
    else
      let t := lowerStr t0
      match scanMatch matchDigitsOrdEdition t with
      | some g => normalize_edition (some g)
      | none =>
        match scanMatch matchSpelledEdition t with
        | some g => normalize_edition (some g)
        | none =>
          match scanMatch matchEditionDigits t with
          | some g => normalize_edition (some g)
          | none =>
            match scanMatch matchDigitsOrdEdDot t with
            | some g => normalize_edition (some g)
            | none =>
              if containsSub "revised edition".toList t ||
                  containsSub "revised ed.".toList t then
                some ("revised".toList)
              else none

/-! ### Reconciliation engine (`compare_editions`) -/

/-- `compare_editions(csv_edition, api_edition)`.  Note the guard is Python
truthiness, so an empty-string API edition is handled like `None`. -/
def compare_editions (csvEdition apiEdition : Option (List Char)) : List Char :=
  let csvNorm := normalize_edition csvEdition
  if !truthy apiEdition then "uncertain".toList
  else if csvNorm = apiEdition then "match".toList
  else if apiEdition = some ("revised".toList) then "uncertain".toList
  else "mismatch".toList

/-! ### Metadata sources: fetch and parse -/

/-- Outcome of one network call: a decoded body, an `HTTPError` with its
status code and message, or a `URLError` with its message. -/
inductive NetOutcome (α : Type) where
  | success : α → NetOutcome α
  | httpError : Nat → List Char → NetOutcome α
  | urlError : List Char → NetOutcome α

/-- One entry of `volumeInfo['industryIdentifiers']`. -/
structure GBIdent where
  idType : List Char
  identifier : List Char
  deriving DecidableEq

/-- The fields of a Google Books `volumeInfo` object read by the source. -/
structure GBVol where
  title : Option (List Char)
  subtitle : Option (List Char)
  description : Option (List Char)
  publishedDate : Option (List Char)
  industryIdentifiers : List GBIdent
  deriving DecidableEq

/-- A decoded Google Books volume response body (`volumeInfo` may be absent). -/
structure GBVolTop where
  volumeInfo : Option GBVol
  deriving DecidableEq

/-- The record dict built by the two parsers. -/
structure BookRecord where
  title : List Char
  published_date : List Char
  isbns : List (List Char)
  edition : Option (List Char)
  description : List Char
  deriving DecidableEq

/-- ISBN_10/ISBN_13 identifiers of a volume, in provider order. -/
def gbIsbns (ids : List GBIdent) : List (List Char) :=
  (ids.filter (fun i => i.idType = "ISBN_10".toList ∨ i.idType = "ISBN_13".toList)).map
    GBIdent.identifier

/-- Edition derivation chain over title, subtitle, description: keep the first
truthy extraction (the loop of the source breaks on truthiness, and the last
computed value survives otherwise). -/
def editionFromTexts (ta tb tc : Option (List Char)) : Option (List Char) :=
  let e1 := extract_edition_from_text ta
  if truthy e1 then e1
  else
    let e2 := extract_edition_from_text tb
    if truthy e2 then e2
    else extract_edition_from_text tc

/-- `parse_google_books_response(data)`. -/
def parse_google_books_response (data : Option GBVolTop) : Option BookRecord :=
  match data with
  | none => none
  | some top =>
    match top.volumeInfo with
    | none => none
    | some vi =>
      let fullTitle := vi.title.getD [] ++
        (match vi.subtitle with
         | some st => if st = [] then [] else " - ".toList ++ st
         | none => [])
      some
        { title := fullTitle
          published_date := vi.publishedDate.getD []
          isbns := gbIsbns vi.industryIdentifiers
          edition := editionFromTexts vi.title vi.subtitle vi.description
          description :=
            match vi.description with
            | some d => if d = [] then [] else d.take 200
            | none => [] }

/-- `fetch_google_books_by_volumeid`: 404 gives `None`; any other `HTTPError`
is re-raised; `URLError` logs a warning and gives `None`. -/
def fetch_google_books_by_volumeid (resp : NetOutcome (Option GBVolTop)) :
    Except (List Char) (Option BookRecord) :=
  match resp with
  | .success d => .ok (parse_google_books_response d)
  | .httpError code msg => if code = 404 then .ok none else .error msg
  | .urlError _ => .ok none

/-- The fields of an Open Library book response read by the source; a missing
`isbn_10`/`isbn_13` key is modelled by the empty list. -/
structure OLBook where
  title : Option (List Char)
  publish_date : Option (List Char)
  edition_name : Option (List Char)
  isbn_10 : List (List Char)
  isbn_13 : List (List Char)
  deriving DecidableEq

/-- `parse_open_library_response(data)`. -/
def parse_open_library_response (data : Option OLBook) : Option BookRecord :=
  match data with
  | none => none
  | some b =>
    let e1 :=
      match b.edition_name with
      | some en => normalize_edition (some en)
      | none => none
    let ed :=
      if truthy e1 then e1
      else
        match b.title with
        | some t => extract_edition_from_text (some t)
        | none => e1
    some
      { title := b.title.getD []
        published_date := b.publish_date.getD []
        isbns := b.isbn_10 ++ b.isbn_13
        edition := ed
        description := [] }

/-- `fetch_open_library_by_isbn`: same error discipline as the Google fetch. -/
def fetch_open_library_by_isbn (resp : NetOutcome (Option OLBook)) :
    Except (List Char) (Option BookRecord) :=
  match resp with
  | .success d => .ok (parse_open_library_response d)
  | .httpError code msg => if code = 404 then .ok none else .error msg
  | .urlError _ => .ok none

/-! ### Repair search engine -/

/-- The result dict of `search_correct_isbn` / `search_correct_isbn_openlibrary`. -/
structure SearchResult where
  suggested_isbn : List Char
  source : List Char
  confidence : List Char
  notes : List Char
  deriving DecidableEq

/-- The initial result value of both search functions. -/
def initSearchResult : SearchResult :=
  { suggested_isbn := [], source := [], confidence := "low".toList, notes := [] }

/-- Python f-string rendering of a string-or-None value. -/
def pyShowOpt : Option (List Char) → List Char
  | none => "None".toList
  | some s => s

/-- The coarse title-similarity test of the Google search: case-insensitive
substring containment in either direction (arguments already lower-cased). -/
def titleMatches (searchTitle apiTitle : List Char) : Bool :=
  containsSub searchTitle apiTitle || containsSub apiTitle searchTitle

/-- The result record set by the high-confidence branch of the Google loop
(`isbns[0]`, source google, an "Exact match" note). -/
def gbHighRes (vi : GBVol) : SearchResult :=
  { suggested_isbn := (gbIsbns vi.industryIdentifiers).headD [],
    source := "google".toList,
    confidence := "high".toList,
    notes := "Exact match: edition ".toList ++
      pyShowOpt (editionFromTexts vi.title vi.subtitle vi.description) ++
      ", title ".toList ++ pyShowOpt vi.title }

/-- The result record set by the medium-confidence branch of the Google loop. -/
def gbMedRes (target : Option (List Char)) (vi : GBVol) : SearchResult :=
  { suggested_isbn := (gbIsbns vi.industryIdentifiers).headD [],
    source := "google".toList,
    confidence := "medium".toList,
    notes := "Title match with edition ".toList ++
      pyShowOpt (editionFromTexts vi.title vi.subtitle vi.description) ++
      " looking for ".toList ++ pyShowOpt target }

/-- The result record set by the low-confidence branch of the Google loop. -/
def gbLowRes (vi : GBVol) : SearchResult :=
  { suggested_isbn := (gbIsbns vi.industryIdentifiers).headD [],
    source := "google".toList,
    confidence := "low".toList,
    notes := "Title match but edition unclear from ".toList ++ pyShowOpt vi.title }

/-- The candidate loop of `search_correct_isbn`.  The second component of the
result is true when the loop returned early (the high-confidence `return`).
In the high branch the "Exact match" note renders `api_edition`, which there
equals the target. -/
def googleLoop (searchTitle : List Char) (target : Option (List Char)) :
    List GBVol → SearchResult → SearchResult × Bool
  | [], r => (r, false)
  | vi :: rest, r =>
    let apiEd := editionFromTexts vi.title vi.subtitle vi.description
    let tMatch := titleMatches (lowerStr searchTitle) (lowerStr (vi.title.getD []))
    let isbns := gbIsbns vi.industryIdentifiers
    if isbns = [] then googleLoop searchTitle target rest r
    else if apiEd = target ∧ tMatch then (gbHighRes vi, true)
    else if tMatch ∧ truthy apiEd then
      if r.suggested_isbn = [] then
        googleLoop searchTitle target rest (gbMedRes target vi)
      else googleLoop searchTitle target rest r
    else if tMatch then
      if r.suggested_isbn = [] then
        googleLoop searchTitle target rest (gbLowRes vi)
      else googleLoop searchTitle target rest r
    else googleLoop searchTitle target rest r

/-- The code after the Google candidate loop: an early `return` delivers the
result as is; otherwise, when no suggestion was recorded, only the notes are
replaced. -/
def searchPostGB (target : Option (List Char)) (p : SearchResult × Bool) : SearchResult :=
  match p with
  | (r, true) => r
  | (r, false) =>
    if r.suggested_isbn = [] then
      { r with notes := "Found results but no edition match for edition ".toList ++
          pyShowOpt target }
    else r

/-- `search_correct_isbn(title, author, edition)` as a function of the decoded
Google Books search response (the author only shapes the query URL). -/
def search_correct_isbn (title : List Char) (edition : Option (List Char))
    (resp : NetOutcome (List GBVol)) : SearchResult :=
  match resp with
  | .httpError _ msg =>
    { initSearchResult with notes := "Error searching Google Books: ".toList ++ msg }
  | .urlError msg =>
    { initSearchResult with notes := "Error searching Google Books: ".toList ++ msg }
  | .success items =>
    if items = [] then
      { initSearchResult with notes := "No results found in Google Books".toList }
    else
      let target := normalize_edition edition
      searchPostGB target (googleLoop title target (items.take 10) initSearchResult)

/-- The fields of one Open Library search `docs` entry that matter here (the
source reads only `key`; the title is carried along untouched, as wire data). -/
structure OLDoc where
  key : Option (List Char)
  title : List Char
  deriving DecidableEq

/-- The fields of one Open Library editions `entries` item (again the title is
wire data the source never reads). -/
structure OLEntry where
  edition_name : Option (List Char)
  title : List Char
  isbn_13 : List (List Char)
  isbn_10 : List (List Char)
  deriving DecidableEq

/-- Edition token derived from one Open Library editions entry. -/
def olEntryEd (ed : OLEntry) : Option (List Char) :=
  match ed.edition_name with
  | some en => normalize_edition (some en)
  | none => none

/-- ISBNs of one Open Library editions entry, `isbn_13` before `isbn_10`. -/
def olEntryIsbns (ed : OLEntry) : List (List Char) := ed.isbn_13 ++ ed.isbn_10

/-- The result record set by the high-confidence branch of the Open Library
editions loop. -/
def olHighRes (ed : OLEntry) : SearchResult :=
  { suggested_isbn := (olEntryIsbns ed).headD [],
    source := "openlibrary".toList,
    confidence := "high".toList,
    notes := "Exact match: edition ".toList ++ pyShowOpt (olEntryEd ed) }

/-- The result record set by the medium-confidence branch of the Open Library
editions loop. -/
def olMedRes (target : Option (List Char)) (ed : OLEntry) : SearchResult :=
  { suggested_isbn := (olEntryIsbns ed).headD [],
    source := "openlibrary".toList,
    confidence := "medium".toList,
    notes := "Found edition ".toList ++ pyShowOpt (olEntryEd ed) ++
      " looking for ".toList ++ pyShowOpt target }

/-- The inner editions loop of `search_correct_isbn_openlibrary`; the boolean
marks the early high-confidence `return`.  Note: unlike the Google loop there
is no title test anywhere in the conditions. -/
def olEntriesLoop (target : Option (List Char)) :
    List OLEntry → SearchResult → SearchResult × Bool
  | [], r => (r, false)
  | ed :: rest, r =>
    let apiEd := olEntryEd ed
    let isbns := olEntryIsbns ed
    if isbns = [] then olEntriesLoop target rest r
    else if apiEd = target then (olHighRes ed, true)
    else if truthy apiEd ∧ r.suggested_isbn = [] then
      olEntriesLoop target rest (olMedRes target ed)
    else olEntriesLoop target rest r

/-- The outer works loop of `search_correct_isbn_openlibrary`; a work without
a truthy key is skipped, a failed editions fetch (`oracle` returns `none`) is
skipped, and each work contributes at most its first 10 editions. -/
def olDocsLoop (target : Option (List Char))
    (oracle : List Char → Option (List OLEntry)) :
    List OLDoc → SearchResult → SearchResult × Bool
  | [], r => (r, false)
  | d :: rest, r =>
    match d.key with
    | none => olDocsLoop target oracle rest r
    | some k =>
      if k = [] then olDocsLoop target oracle rest r
      else
        match oracle k with
        | none => olDocsLoop target oracle rest r
        | some entries =>
          match olEntriesLoop target (entries.take 10) r with
          | (r2, true) => (r2, true)
          | (r2, false) => olDocsLoop target oracle rest r2

/-- The code after the Open Library works loop: an early `return` delivers the
result as is; otherwise, when no suggestion was recorded, only the notes are
replaced. -/
def searchPostOL (target : Option (List Char)) (p : SearchResult × Bool) : SearchResult :=
  match p with
  | (r, true) => r
  | (r, false) =>
    if r.suggested_isbn = [] then
      { r with notes := "Found work but no edition match for edition ".toList ++
          pyShowOpt target }
    else r

/-- `search_correct_isbn_openlibrary(title, author, edition)` as a function of
the decoded search response and the per-work editions oracle (title and author
only shape the query URL). -/
def search_correct_isbn_openlibrary (edition : Option (List Char))
    (resp : NetOutcome (List OLDoc))
    (oracle : List Char → Option (List OLEntry)) : SearchResult :=
  match resp with
  | .httpError _ msg =>
    { initSearchResult with notes := "Error searching Open Library: ".toList ++ msg }
  | .urlError msg =>
    { initSearchResult with notes := "Error searching Open Library: ".toList ++ msg }
  | .success docs =>
    if docs = [] then
      { initSearchResult with notes := "No results found in Open Library".toList }
    else
      let target := normalize_edition edition
      searchPostOL target (olDocsLoop target oracle (docs.take 5) initSearchResult)

/-- The per-book combination step of `repair_mismatches`: run the Google
search, fall back to Open Library when the result is low-confidence or has no
ISBN, and adopt the fallback only when it is high-confidence or supplies an
ISBN the primary lacked. -/
def repairSearch (title : List Char) (edition : Option (List Char))
    (gbResp : NetOutcome (List GBVol)) (olResp : NetOutcome (List OLDoc))
    (olOracle : List Char → Option (List OLEntry)) : SearchResult :=
  let result := search_correct_isbn title edition gbResp
  if result.confidence = "low".toList ∨ result.suggested_isbn = [] then
    let olResult := search_correct_isbn_openlibrary edition olResp olOracle
    if olResult.confidence = "high".toList ∨
        (olResult.suggested_isbn ≠ [] ∧ result.suggested_isbn = []) then olResult
    else result
  else result

/-! ### Repair applier (`apply_repairs`) -/

/-- A `data.csv` row: the two fields the applier reads or writes, plus all the
remaining columns, carried along untouched. -/
structure CatalogRow where
  title : List Char
  isbn : List Char
  rest : List (List Char × List Char)
  deriving DecidableEq

/-- A row of the repair-suggestions file (the fields the applier reads). -/
structure RepairSuggestion where
  title : List Char
  currentIsbn : List Char
  suggestedIsbn : List Char
  confidence : List Char
  deriving DecidableEq

/-- Apply one suggestion: update the ISBN of the first row whose (title, ISBN)
pair equals the suggestion's (title, current ISBN) and stop (`break`); the
boolean reports whether a change was made. -/
def applyOne (s : RepairSuggestion) : List CatalogRow → List CatalogRow × Bool
  | [] => ([], false)
  | b :: rest =>
    if b.title = s.title ∧ b.isbn = s.currentIsbn then
      ({ b with isbn := s.suggestedIsbn } :: rest, true)
    else
      let p := applyOne s rest
      (b :: p.1, p.2)

/-- The filter of `apply_repairs`: high confidence and a truthy suggested ISBN. -/
def highFilter (suggs : List RepairSuggestion) : List RepairSuggestion :=
  suggs.filter (fun s => s.confidence = "high".toList ∧ s.suggestedIsbn ≠ [])

/-- Apply a list of suggestions in order, counting the changed rows. -/
def applyAll : List RepairSuggestion → List CatalogRow → List CatalogRow × Nat
  | [], books => (books, 0)
  | s :: rest, books =>
    let p := applyOne s books
    let q := applyAll rest p.1
    (q.1, (if p.2 then 1 else 0) + q.2)

/-- `apply_repairs(suggestions_file, data_file)`: filter to accepted
suggestions and apply them to the catalog rows, returning the mutated rows and
the count of changes. -/
def apply_repairs (suggs : List RepairSuggestion) (books : List CatalogRow) :
    List CatalogRow × Nat :=
  applyAll (highFilter suggs) books

/-! ### Derived predicates used by the claims -/

/-- The high-confidence acceptance condition of the Google candidate loop:
non-empty ISBN list, derived edition equal to the target, and a title match. -/
def gbHighCond (searchTitle : List Char) (target : Option (List Char)) (vi : GBVol) : Prop :=
  gbIsbns vi.industryIdentifiers ≠ [] ∧
  editionFromTexts vi.title vi.subtitle vi.description = target ∧
  titleMatches (lowerStr searchTitle) (lowerStr (vi.title.getD [])) = true

/-- The high-confidence acceptance condition of the Open Library editions
loop: non-empty ISBN list and derived edition equal to the target — no title
condition. -/
def olHighCond (target : Option (List Char)) (ed : OLEntry) : Prop :=
  olEntryIsbns ed ≠ [] ∧ olEntryEd ed = target

/-- Numeric rank of a confidence string: low 0, medium 1, high 2. -/
def confRank (conf : List Char) : Nat :=
  if conf = "high".toList then 2 else if conf = "medium".toList then 1 else 0

/-- Invariant of the running result inside a search loop: an empty suggested
ISBN means the confidence is still the initial "low", and the loop never
continues from a "high" state (it returns instead). -/
def srInv (r : SearchResult) : Prop :=
  (r.suggested_isbn = [] → r.confidence = "low".toList) ∧
  r.confidence ≠ "high".toList

/-- Well-formed provider volume: every extracted ISBN string is non-empty. -/
def gbVolOk (vi : GBVol) : Prop := ∀ x ∈ gbIsbns vi.industryIdentifiers, x ≠ []

/-- Well-formed Google search response: every candidate is well-formed. -/
def gbRespOk : NetOutcome (List GBVol) → Prop
  | .success items => ∀ vi ∈ items, gbVolOk vi
  | _ => True

instance (st : List Char) (tg : Option (List Char)) (vi : GBVol) :
    Decidable (gbHighCond st tg vi) := by
  unfold gbHighCond
  infer_instance

instance (tg : Option (List Char)) (ed : OLEntry) : Decidable (olHighCond tg ed) := by
  unfold olHighCond
  infer_instance

instance (r : SearchResult) : Decidable (srInv r) := by
  unfold srInv
  infer_instance

instance (vi : GBVol) : Decidable (gbVolOk vi) := by
  unfold gbVolOk
  infer_instance

instance (resp : NetOutcome (List GBVol)) : Decidable (gbRespOk resp) := by
  cases resp with
  | success items => unfold gbRespOk; infer_instance
  | httpError c m => unfold gbRespOk; exact .isTrue trivial
  | urlError m => unfold gbRespOk; exact .isTrue trivial

/-! ### Helper lemmas: characters -/

lemma upperLower_snd_fixed :
    ∀ p ∈ upperLower, upperLower.find? (fun q => q.1 == p.2) = none := by decide

lemma upperLower_fst_not_space : ∀ p ∈ upperLower, isSpaceChar p.1 = false := by decide

lemma upperLower_snd_not_space : ∀ p ∈ upperLower, isSpaceChar p.2 = false := by decide

lemma upperLower_fst_not_digit : ∀ p ∈ upperLower, p.1.isDigit = false := by decide

lemma lowerChar_idem (c : Char) : lowerChar (lowerChar c) = lowerChar c := by
  cases h : upperLower.find? (fun p => p.1 == c) with
  | none => simp [lowerChar, h]
  | some p =>
    simp [lowerChar, h, upperLower_snd_fixed p (List.mem_of_find?_eq_some h)]

lemma isSpaceChar_lowerChar (c : Char) : isSpaceChar (lowerChar c) = isSpaceChar c := by
  cases h : upperLower.find? (fun p => p.1 == c) with
  | none => simp [lowerChar, h]
  | some p =>
    have hm := List.mem_of_find?_eq_some h
    have he : p.1 = c := by simpa using List.find?_some h
    have h1 : lowerChar c = p.2 := by simp [lowerChar, h]
    rw [h1, upperLower_snd_not_space p hm, ← he, upperLower_fst_not_space p hm]

lemma lowerChar_of_digit {c : Char} (h : c.isDigit = true) : lowerChar c = c := by
  cases hf : upperLower.find? (fun p => p.1 == c) with
  | none => simp [lowerChar, hf]
  | some p =>
    have hm := List.mem_of_find?_eq_some hf
    have he : p.1 = c := by simpa using List.find?_some hf
    have hd := upperLower_fst_not_digit p hm
    rw [he] at hd
    rw [hd] at h
    exact absurd h (by simp)

lemma space_not_digit {c : Char} (h : isSpaceChar c = true) : c.isDigit = false := by
  unfold isSpaceChar at h
  simp only [Bool.or_eq_true, beq_iff_eq] at h
  rcases h with ((((rfl | rfl) | rfl) | rfl) | rfl) | rfl <;> decide

/-! ### Helper lemmas: strings -/

lemma lowerStr_fixed {s : List Char} (h : ∀ c ∈ s, lowerChar c = c) : lowerStr s = s := by
  induction s with
  | nil => rfl
  | cons c t ih =>
    simp only [lowerStr, List.map_cons] at ih ⊢
    rw [h c (by simp), ih (fun x hx => h x (List.mem_cons_of_mem _ hx))]

lemma dropWhile_self (p : Char → Bool) (l : List Char) :
    List.dropWhile p (List.dropWhile p l) = List.dropWhile p l := by
  induction l with
  | nil => rfl
  | cons c t ih =>
    by_cases h : p c
    · simp [List.dropWhile_cons, h, ih]
    · simp [List.dropWhile_cons, h]

lemma dropWhile_eq_self_of {p : Char → Bool} {l : List Char}
    (h : ∀ c ∈ l, p c = false) : List.dropWhile p l = l := by
  cases l with
  | nil => rfl
  | cons c t => simp [List.dropWhile_cons, h c (by simp)]

lemma stripEnd_idem (l : List Char) : stripEnd (stripEnd l) = stripEnd l := by
  unfold stripEnd
  rw [List.reverse_reverse, dropWhile_self]

lemma stripEnd_subset {l : List Char} : ∀ c ∈ stripEnd l, c ∈ l := by
  intro c hc
  unfold stripEnd at hc
  rw [List.mem_reverse] at hc
  have hc2 := (List.dropWhile_sublist isSpaceChar).subset hc
  rwa [List.mem_reverse] at hc2

lemma pyStrip_subset {l : List Char} : ∀ c ∈ pyStrip l, c ∈ l := by
  intro c hc
  unfold pyStrip at hc
  have h1 := stripEnd_subset c hc
  exact (List.dropWhile_sublist isSpaceChar).subset h1

lemma stripEnd_eq_self_of {l : List Char} (h : ∀ c ∈ l, isSpaceChar c = false) :
    stripEnd l = l := by
  unfold stripEnd
  rw [dropWhile_eq_self_of (fun c hc => h c (List.mem_reverse.mp hc)), List.reverse_reverse]

lemma stripEnd_cons (c : Char) (t : List Char) :
    stripEnd (c :: t) =
      if stripEnd t = [] then (if isSpaceChar c then [] else [c])
      else c :: stripEnd t := by
  unfold stripEnd
  rw [show (c :: t).reverse = t.reverse ++ [c] from by simp, List.dropWhile_append]
  by_cases h : (t.reverse.dropWhile isSpaceChar).isEmpty
  · rw [if_pos h]
    have h2 : (t.reverse.dropWhile isSpaceChar).reverse = [] := by
      rw [List.isEmpty_iff] at h
      simp [h]
    rw [if_pos h2]
    by_cases hc : isSpaceChar c
    · simp [List.dropWhile_cons, hc]
    · simp [List.dropWhile_cons, hc]
  · rw [if_neg h]
    have h2 : (t.reverse.dropWhile isSpaceChar).reverse ≠ [] := by
      rw [List.isEmpty_iff] at h
      simpa using h
    rw [if_neg h2]
    simp

lemma stripEnd_eq_nil_iff {t : List Char} :
    stripEnd t = [] ↔ ∀ x ∈ t, isSpaceChar x = true := by
  unfold stripEnd
  rw [List.reverse_eq_nil_iff, List.dropWhile_eq_nil_iff]
  constructor
  · intro h x hx
    exact h x (List.mem_reverse.mpr hx)
  · intro h x hx
    exact h x (List.mem_reverse.mp hx)

lemma dropWhile_stripEnd (l : List Char) :
    List.dropWhile isSpaceChar (stripEnd l) = stripEnd (List.dropWhile isSpaceChar l) := by
  induction l with
  | nil => rfl
  | cons c t ih =>
    by_cases hc : isSpaceChar c
    · by_cases he : stripEnd t = []
      · have ht : List.dropWhile isSpaceChar t = [] :=
          List.dropWhile_eq_nil_iff.mpr (stripEnd_eq_nil_iff.mp he)
        have l1 : stripEnd (c :: t) = [] := by rw [stripEnd_cons, if_pos he, if_pos hc]
        have l2 : List.dropWhile isSpaceChar (c :: t) = List.dropWhile isSpaceChar t := by
          rw [List.dropWhile_cons, if_pos hc]
        rw [l1, l2, ht]
        rfl
      · have l1 : stripEnd (c :: t) = c :: stripEnd t := by rw [stripEnd_cons, if_neg he]
        have l2 : List.dropWhile isSpaceChar (c :: t) = List.dropWhile isSpaceChar t := by
          rw [List.dropWhile_cons, if_pos hc]
        rw [l1, l2, List.dropWhile_cons, if_pos hc, ih]
    · by_cases he : stripEnd t = []
      · have l1 : stripEnd (c :: t) = [c] := by rw [stripEnd_cons, if_pos he, if_neg hc]
        have l2 : List.dropWhile isSpaceChar (c :: t) = c :: t := by
          rw [List.dropWhile_cons, if_neg hc]
        rw [l1, l2, l1, List.dropWhile_cons, if_neg hc]
      · have l1 : stripEnd (c :: t) = c :: stripEnd t := by rw [stripEnd_cons, if_neg he]
        have l2 : List.dropWhile isSpaceChar (c :: t) = c :: t := by
          rw [List.dropWhile_cons, if_neg hc]
        rw [l1, l2, l1, List.dropWhile_cons, if_neg hc]

lemma pyStrip_idem (l : List Char) : pyStrip (pyStrip l) = pyStrip l := by
  unfold pyStrip
  rw [dropWhile_stripEnd, dropWhile_self, stripEnd_idem]

/-! ### Helper lemmas: substring search and digit runs -/

lemma leadsWith_mem {p s : List Char} (h : leadsWith p s = true) : ∀ c ∈ p, c ∈ s := by
  induction p generalizing s with
  | nil => intro c hc; exact absurd hc (List.not_mem_nil c)
  | cons a resta ih =>
    cases s with
    | nil => exact absurd h (by simp [leadsWith])
    | cons b restb =>
      simp only [leadsWith, Bool.and_eq_true, beq_iff_eq] at h
      intro c hc
      rcases List.mem_cons.mp hc with hc | hc
      · subst hc; rw [h.1]; exact List.mem_cons_self b restb
      · exact List.mem_cons_of_mem b (ih h.2 c hc)

lemma containsSub_mem {p s : List Char} (h : containsSub p s = true) : ∀ c ∈ p, c ∈ s := by
  induction s with
  | nil =>
    simp only [containsSub, List.isEmpty_iff] at h
    subst h
    intro c hc
    exact absurd hc (List.not_mem_nil c)
  | cons b restb ih =>
    simp only [containsSub, Bool.or_eq_true] at h
    rcases h with h | h
    · exact leadsWith_mem h
    · intro c hc
      exact List.mem_cons_of_mem b (ih h c hc)

lemma firstDigitRun_some {s d : List Char} (h : firstDigitRun s = some d) :
    d ≠ [] ∧ ∀ c ∈ d, c.isDigit = true := by
  induction s with
  | nil => exact absurd h (by simp [firstDigitRun])
  | cons c t ih =>
    by_cases hc : c.isDigit
    · rw [firstDigitRun, if_pos hc] at h
      obtain rfl : c :: t.takeWhile Char.isDigit = d := Option.some.inj h
      refine ⟨by simp, ?_⟩
      intro x hx
      rcases List.mem_cons.mp hx with hx | hx
      · subst hx; exact hc
      · exact List.mem_takeWhile_imp hx
    · rw [firstDigitRun, if_neg hc] at h
      exact ih h

lemma firstDigitRun_all {d : List Char} (h1 : d ≠ []) (h2 : ∀ c ∈ d, c.isDigit = true) :
    firstDigitRun d = some d := by
  cases d with
  | nil => exact absurd rfl h1
  | cons c t =>
    rw [firstDigitRun, if_pos (h2 c (by simp))]
    congr 1
    rw [List.cons.injEq]
    exact ⟨rfl, List.takeWhile_eq_self_iff.mpr (fun x hx => h2 x (List.mem_cons_of_mem c hx))⟩

/-! ### Helper lemmas: normalize_edition -/

lemma wordToNum_keys_nonempty : ∀ p ∈ wordToNum, p.1 ≠ [] := by decide

lemma wordToNum_keys_nondigit :
    ∀ p ∈ wordToNum, p.1.any (fun c => !c.isDigit) = true := by decide

lemma wordToNum_vals_fixed :
    ∀ p ∈ wordToNum, normalize_edition (some p.2) = some p.2 := by decide

lemma normalize_revised_fixed :
    normalize_edition (some ("revised".toList)) = some ("revised".toList) := by decide

lemma normalize_edition_eq (s0 : List Char) (h : s0 ≠ []) :
    normalize_edition (some s0) =
      (match wordToNum.find? (fun p => containsSub p.1 (pyStrip (lowerStr s0))) with
       | some p => some p.2
       | none =>
         match firstDigitRun (pyStrip (lowerStr s0)) with
         | some d => some d
         | none =>
           if containsSub "revised".toList (pyStrip (lowerStr s0)) ||
               containsSub "rev".toList (pyStrip (lowerStr s0)) then
             some ("revised".toList)
           else some (pyStrip (lowerStr s0))) := by
  simp only [normalize_edition]
  rw [if_neg h]

lemma normalize_digits {d : List Char} (h1 : d ≠ []) (h2 : ∀ c ∈ d, c.isDigit = true) :
    normalize_edition (some d) = some d := by
  have hlow : lowerStr d = d := lowerStr_fixed (fun c hc => lowerChar_of_digit (h2 c hc))
  have hsp : ∀ c ∈ d, isSpaceChar c = false := by
    intro c hc
    by_contra hn
    have := space_not_digit (by simpa using hn)
    rw [h2 c hc] at this
    exact absurd this (by simp)
  have hstrip : pyStrip d = d := by
    unfold pyStrip
    rw [dropWhile_eq_self_of hsp, stripEnd_eq_self_of hsp]
  have hfind : wordToNum.find? (fun p => containsSub p.1 d) = none := by
    rw [List.find?_eq_none]
    intro p hp hcon
    have hmem := containsSub_mem hcon
    obtain ⟨c, hc, hcd⟩ := List.any_eq_true.mp (wordToNum_keys_nondigit p hp)
    have : c.isDigit = true := h2 c (hmem c hc)
    rw [this] at hcd
    exact absurd hcd (by simp)
  rw [normalize_edition_eq d h1, hlow, hstrip, hfind, firstDigitRun_all h1 h2]

lemma normalize_passthrough {s0 : List Char}
    (hf : wordToNum.find? (fun p => containsSub p.1 (pyStrip (lowerStr s0))) = none)
    (hd : firstDigitRun (pyStrip (lowerStr s0)) = none)
    (hr : (containsSub "revised".toList (pyStrip (lowerStr s0)) ||
        containsSub "rev".toList (pyStrip (lowerStr s0))) = false)
    (hne : pyStrip (lowerStr s0) ≠ []) :
    normalize_edition (some (pyStrip (lowerStr s0))) = some (pyStrip (lowerStr s0)) := by
  have hlow : lowerStr (pyStrip (lowerStr s0)) = pyStrip (lowerStr s0) := by
    refine lowerStr_fixed (fun c hc => ?_)
    have hmem : c ∈ lowerStr s0 := pyStrip_subset c hc
    obtain ⟨a, _, rfl⟩ := List.mem_map.mp hmem
    exact lowerChar_idem a
  have hstrip : pyStrip (pyStrip (lowerStr s0)) = pyStrip (lowerStr s0) := pyStrip_idem _
  rw [normalize_edition_eq _ hne, hlow, hstrip, hf, hd, hr]
  simp

/-! ### Claim C6: idempotence of the normalizer -/

/-- C6 counterexample: the claim "normalize(normalize(x)) == normalize(x) for
every input x" fails at the whitespace-only string " ": normalizing it yields
the empty string, but normalizing the empty string yields null. -/
theorem c6_counterexample :
    normalize_edition (some (" ".toList)) = some [] ∧
    normalize_edition (normalize_edition (some (" ".toList))) ≠
      normalize_edition (some (" ".toList)) := by
  constructor <;> decide

/-- C6 (amended): `normalize_edition` is idempotent on every input whose
normalization is not the empty string — so on all inputs except non-empty
whitespace-only strings; in particular every canonical token (a digit string,
the literal "revised", or a non-empty trimmed lower-case passthrough) is a
fixed point. -/
theorem c6_normalize_idem_amended :
    ∀ x : Option (List Char), normalize_edition x ≠ some [] →
      normalize_edition (normalize_edition x) = normalize_edition x := by
  intro x hx
  match x with
  | none => rfl
  | some s0 =>
    by_cases h0 : s0 = []
    · subst h0; rfl
    · rw [normalize_edition_eq s0 h0] at hx ⊢
      cases hf : wordToNum.find? (fun p => containsSub p.1 (pyStrip (lowerStr s0))) with
      | some p =>
        simp only [hf]
        exact wordToNum_vals_fixed p (List.mem_of_find?_eq_some hf)
      | none =>
        simp only [hf] at hx ⊢
        cases hd : firstDigitRun (pyStrip (lowerStr s0)) with
        | some d =>
          simp only [hd]
          obtain ⟨hne, hdig⟩ := firstDigitRun_some hd
          exact normalize_digits hne hdig
        | none =>
          simp only [hd] at hx ⊢
          by_cases hr : (containsSub "revised".toList (pyStrip (lowerStr s0)) ||
              containsSub "rev".toList (pyStrip (lowerStr s0))) = true
          · rw [if_pos hr]
            exact normalize_revised_fixed
          · rw [if_neg hr] at hx ⊢
            have hne : pyStrip (lowerStr s0) ≠ [] := by
              intro hnil
              exact hx (by rw [hnil])
            exact normalize_passthrough hf hd (by simpa using hr) hne

/-- C6 witness: a concrete instance of the amended idempotence theorem. -/
theorem c6_witness :
    normalize_edition (some ("2nd Ed.".toList)) ≠ some [] ∧
    normalize_edition (normalize_edition (some ("2nd Ed.".toList))) =
      normalize_edition (some ("2nd Ed.".toList)) :=
  ⟨by decide, c6_normalize_idem_amended _ (by decide)⟩

/-! ### Claim C7: ordinal-word mapping of the normalizer -/

/-- C7: whenever a recognised ordinal word or abbreviation occurs as a
substring of the trimmed lower-cased input, `normalize_edition` returns the
digit string mapped by the first such entry in the fixed `word_to_num`
enumeration order; in particular "Second", "2nd" and "2ND" map to "2". -/
theorem c7_word_enumeration :
    (∀ (s : List Char) (p : List Char × List Char),
        wordToNum.find? (fun q => containsSub q.1 (pyStrip (lowerStr s))) = some p →
        normalize_edition (some s) = some p.2) ∧
    normalize_edition (some ("Second".toList)) = some ("2".toList) ∧
    normalize_edition (some ("2nd".toList)) = some ("2".toList) ∧
    normalize_edition (some ("2ND".toList)) = some ("2".toList) := by
  refine ⟨?_, by decide, by decide, by decide⟩
  intro s p hp
  by_cases h0 : s = []
  · exfalso
    subst h0
    have h1 := List.find?_some hp
    have h2 := List.mem_of_find?_eq_some hp
    have h3 : pyStrip (lowerStr ([] : List Char)) = [] := rfl
    rw [h3] at h1
    have h4 : p.1 = [] := by
      have := containsSub_mem h1
      cases hq : p.1 with
      | nil => rfl
      | cons a t =>
        exfalso
        have ha : a ∈ ([] : List Char) := this a (by rw [hq]; simp)
        exact absurd ha (List.not_mem_nil a)
    exact wordToNum_keys_nonempty p h2 h4
  · rw [normalize_edition_eq s h0, hp]

/-- C7 witness: in "third edition, 2nd printing" both "third" and "2nd" occur,
but "2nd" precedes "third" in the `word_to_num` enumeration, so the result is
"2" even though "third" occurs earlier in the string. -/
theorem c7_witness :
    normalize_edition (some ("third edition, 2nd printing".toList)) =
      some (("2nd".toList, "2".toList) : List Char × List Char).2 :=
  c7_word_enumeration.1 _ _ (by decide)

/-! ### Claim C1: the reconciliation verdict -/

/-- C1 counterexample: for claimed edition " " and fetched edition "" the
claim prescribes verdict "match" (the fetched edition is a string, not null,
and equals the normalized claim), but the code returns "uncertain" because the
empty string is falsy. -/
theorem c1_counterexample :
    normalize_edition (some (" ".toList)) = some [] ∧
    compare_editions (some (" ".toList)) (some []) ≠ "match".toList ∧
    compare_editions (some (" ".toList)) (some []) = "uncertain".toList := by
  refine ⟨by decide, by decide, by decide⟩

/-- C1 (amended): `compare_editions` returns "uncertain" when the fetched
edition is null **or empty**; "match" when the fetched edition is non-empty
and equals the normalized claim; "uncertain" when the fetched edition is
non-empty, differs from the normalized claim and equals "revised"; and
"mismatch" otherwise — with the four quoted examples. -/
theorem c1_reconcile_amended :
    (∀ c, compare_editions c none = "uncertain".toList) ∧
    (∀ c, compare_editions c (some []) = "uncertain".toList) ∧
    (∀ c f, f ≠ [] → normalize_edition c = some f →
        compare_editions c (some f) = "match".toList) ∧
    (∀ c f, f ≠ [] → normalize_edition c ≠ some f → f = "revised".toList →
        compare_editions c (some f) = "uncertain".toList) ∧
    (∀ c f, f ≠ [] → normalize_edition c ≠ some f → f ≠ "revised".toList →
        compare_editions c (some f) = "mismatch".toList) ∧
    compare_editions (some ("Second".toList)) none = "uncertain".toList ∧
    compare_editions (some ("2".toList)) (some ("2".toList)) = "match".toList ∧
    compare_editions (some ("3".toList)) (some ("revised".toList)) = "uncertain".toList ∧
    compare_editions (some ("3".toList)) (some ("2".toList)) = "mismatch".toList := by
  refine ⟨fun c => rfl, fun c => rfl, ?_, ?_, ?_, by decide, by decide, by decide, by decide⟩
  · intro c f hf hn
    have hemp : f.isEmpty = false := by simpa [List.isEmpty_iff] using hf
    simp only [compare_editions, truthy, hemp, hn, Bool.not_false, Bool.not_true,
      Bool.false_eq_true, if_false, if_true, if_pos rfl]
  · intro c f hf hn hrev
    have hemp : f.isEmpty = false := by simpa [List.isEmpty_iff] using hf
    subst hrev
    simp only [compare_editions, truthy, hemp, Bool.not_false, Bool.not_true,
      Bool.false_eq_true, if_false]
    rw [if_neg (by simpa using hn)]
    simp
  · intro c f hf hn hrev
    have hemp : f.isEmpty = false := by simpa [List.isEmpty_iff] using hf
    simp only [compare_editions, truthy, hemp, Bool.not_false, Bool.not_true,
      Bool.false_eq_true, if_false]
    rw [if_neg (by simpa using hn), if_neg (by simpa using hrev)]

/-- C1 witness: a concrete instance of the amended match clause. -/
theorem c1_witness :
    compare_editions (some ("2nd".toList)) (some ("2".toList)) = "match".toList :=
  c1_reconcile_amended.2.2.1 (some ("2nd".toList)) ("2".toList) (by decide) (by decide)

/-! ### Claim C2: fetch error handling -/

/-- C2 counterexample: an HTTP error other than 404 is re-raised by both fetch
functions, so an exception does propagate to the caller, contrary to the
claim that every non-404 transport failure is recovered as null. -/
theorem c2_counterexample :
    fetch_google_books_by_volumeid
        (NetOutcome.httpError 500 ("Internal Server Error".toList)) =
      Except.error ("Internal Server Error".toList) ∧
    fetch_open_library_by_isbn
        (NetOutcome.httpError 503 ("Service Unavailable".toList)) =
      Except.error ("Service Unavailable".toList) :=
  ⟨rfl, rfl⟩

/-- C2 (amended): for both fetch functions a 404 returns null and a
`URLError`-class transport failure is recovered locally (warning, null), but
an HTTP error with any other status code is re-raised and propagates to the
caller. -/
theorem c2_fetch_amended :
    (∀ d, fetch_google_books_by_volumeid (NetOutcome.success d) =
        Except.ok (parse_google_books_response d)) ∧
    (∀ m, fetch_google_books_by_volumeid (NetOutcome.httpError 404 m) = Except.ok none) ∧
    (∀ m, fetch_google_books_by_volumeid (NetOutcome.urlError m) = Except.ok none) ∧
    (∀ c m, c ≠ 404 →
        fetch_google_books_by_volumeid (NetOutcome.httpError c m) = Except.error m) ∧
    (∀ d, fetch_open_library_by_isbn (NetOutcome.success d) =
        Except.ok (parse_open_library_response d)) ∧
    (∀ m, fetch_open_library_by_isbn (NetOutcome.httpError 404 m) = Except.ok none) ∧
    (∀ m, fetch_open_library_by_isbn (NetOutcome.urlError m) = Except.ok none) ∧
    (∀ c m, c ≠ 404 →
        fetch_open_library_by_isbn (NetOutcome.httpError c m) = Except.error m) := by
  refine ⟨fun d => rfl, fun m => rfl, fun m => rfl, ?_, fun d => rfl, fun m => rfl,
    fun m => rfl, ?_⟩
  · intro c m hc
    simp only [fetch_google_books_by_volumeid, if_neg hc]
  · intro c m hc
    simp only [fetch_open_library_by_isbn, if_neg hc]

/-- C2 witness: the re-raise clause of the amended theorem at status 502. -/
theorem c2_witness :
    fetch_google_books_by_volumeid (NetOutcome.httpError 502 ("Bad Gateway".toList)) =
      Except.error ("Bad Gateway".toList) :=
  c2_fetch_amended.2.2.2.1 502 ("Bad Gateway".toList) (by decide)

/-! ### Helper lemmas: the pattern matchers -/

lemma scanMatch_some {m : List Char → Option (List Char)} {s g : List Char}
    (h : scanMatch m s = some g) : ∃ s2, m s2 = some g := by
  induction s with
  | nil => exact ⟨[], h⟩
  | cons c t ih =>
    simp only [scanMatch] at h
    cases hm : m (c :: t) with
    | some g2 =>
      simp only [hm] at h
      exact ⟨c :: t, hm.trans (by rw [h])⟩
    | none =>
      simp only [hm] at h
      exact ih h

lemma matchDigitsOrdThen_digits {lit s g : List Char}
    (h : matchDigitsOrdThen lit s = some g) : g ≠ [] ∧ g.all Char.isDigit = true := by
  simp only [matchDigitsOrdThen] at h
  by_cases hd : s.takeWhile Char.isDigit = []
  · rw [if_pos hd] at h
    exact absurd h (by simp)
  · rw [if_neg hd] at h
    cases h1 : anyLeadRest ordSuffixes (s.dropWhile Char.isDigit) with
    | none =>
      simp only [h1] at h
      exact Option.noConfusion h
    | some r1 =>
      simp only [h1] at h
      cases h2 : spacesThen1 r1 with
      | none =>
        simp only [h2] at h
        exact Option.noConfusion h
      | some r2 =>
        simp only [h2] at h
        by_cases h3 : leadsWith lit r2 = true
        · rw [if_pos h3] at h
          obtain rfl : s.takeWhile Char.isDigit = g := Option.some.inj h
          exact ⟨hd, List.all_eq_true.mpr (fun c hc => List.mem_takeWhile_imp hc)⟩
        · rw [if_neg h3] at h
          exact absurd h (by simp)

lemma matchEditionDigits_digits {s g : List Char}
    (h : matchEditionDigits s = some g) : g ≠ [] ∧ g.all Char.isDigit = true := by
  simp only [matchEditionDigits] at h
  by_cases h0 : leadsWith "edition".toList s = true
  · rw [if_pos h0] at h
    cases h1 : spacesThen1 (s.drop 7) with
    | none =>
      simp only [h1] at h
      exact Option.noConfusion h
    | some r1 =>
      simp only [h1] at h
      by_cases h2 : r1.takeWhile Char.isDigit = []
      · rw [if_pos h2] at h
        exact absurd h (by simp)
      · rw [if_neg h2] at h
        obtain rfl : r1.takeWhile Char.isDigit = g := Option.some.inj h
        exact ⟨h2, List.all_eq_true.mpr (fun c hc => List.mem_takeWhile_imp hc)⟩
  · rw [if_neg h0] at h
    exact absurd h (by simp)

lemma anyLeadCap_mem {opts : List (List Char)} {s : List Char}
    {pr : List Char × List Char} (h : anyLeadCap opts s = some pr) : pr.1 ∈ opts := by
  induction opts with
  | nil => exact absurd h (by simp [anyLeadCap])
  | cons o os ih =>
    simp only [anyLeadCap] at h
    by_cases h0 : leadsWith o s = true
    · rw [if_pos h0] at h
      obtain rfl : (o, s.drop o.length) = pr := Option.some.inj h
      exact List.mem_cons_self o os
    · rw [if_neg h0] at h
      exact List.mem_cons_of_mem o (ih h)

lemma matchSpelledEdition_word {s g : List Char}
    (h : matchSpelledEdition s = some g) : g ∈ spelledOrdinals := by
  simp only [matchSpelledEdition] at h
  cases h0 : anyLeadCap spelledOrdinals s with
  | none =>
    simp only [h0] at h
    exact Option.noConfusion h
  | some pr =>
    simp only [h0] at h
    cases h1 : spacesThen1 pr.2 with
    | none =>
      simp only [h1] at h
      exact Option.noConfusion h
    | some r2 =>
      simp only [h1] at h
      by_cases h2 : leadsWith "edition".toList r2 = true
      · rw [if_pos h2] at h
        obtain rfl : pr.1 = g := Option.some.inj h
        exact anyLeadCap_mem h0
      · rw [if_neg h2] at h
        exact absurd h (by simp)

lemma spelled_norm_canonical :
    ∀ w ∈ spelledOrdinals,
      (match normalize_edition (some w) with
       | some r => !r.isEmpty && r.all Char.isDigit
       | none => false) = true := by decide

lemma extract_edition_eq (t0 : List Char) (h : t0 ≠ []) :
    extract_edition_from_text (some t0) =
      (match scanMatch matchDigitsOrdEdition (lowerStr t0) with
       | some g => normalize_edition (some g)
       | none =>
         match scanMatch matchSpelledEdition (lowerStr t0) with
         | some g => normalize_edition (some g)
         | none =>
           match scanMatch matchEditionDigits (lowerStr t0) with
           | some g => normalize_edition (some g)
           | none =>
             match scanMatch matchDigitsOrdEdDot (lowerStr t0) with
             | some g => normalize_edition (some g)
             | none =>
               if containsSub "revised edition".toList (lowerStr t0) ||
                   containsSub "revised ed.".toList (lowerStr t0) then
                 some ("revised".toList)
               else none) := by
  simp only [extract_edition_from_text]
  rw [if_neg h]

/-! ### Claim C10: every extracted edition token is canonical -/

/-- C10: every non-null value returned by `extract_edition_from_text` is
either a non-empty digit string or the literal "revised"; the raw-passthrough
form of the normalizer is never produced by the extractor. -/
theorem c10_extract_canonical :
    ∀ (t : Option (List Char)) (r : List Char), extract_edition_from_text t = some r →
      (r ≠ [] ∧ r.all Char.isDigit = true) ∨ r = "revised".toList := by
  intro t r h
  match t with
  | none => exact absurd h (by simp [extract_edition_from_text])
  | some t0 =>
    by_cases h0 : t0 = []
    · subst h0
      exact absurd h (by simp [extract_edition_from_text])
    · rw [extract_edition_eq t0 h0] at h
      cases hA : scanMatch matchDigitsOrdEdition (lowerStr t0) with
      | some g =>
        simp only [hA] at h
        obtain ⟨s2, hm⟩ := scanMatch_some hA
        obtain ⟨hne, hdig⟩ := matchDigitsOrdThen_digits hm
        rw [normalize_digits hne (fun c hc => List.all_eq_true.mp hdig c hc)] at h
        obtain rfl := Option.some.inj h
        exact Or.inl ⟨hne, hdig⟩
      | none =>
        simp only [hA] at h
        cases hB : scanMatch matchSpelledEdition (lowerStr t0) with
        | some g =>
          simp only [hB] at h
          obtain ⟨s2, hm⟩ := scanMatch_some hB
          have hw := matchSpelledEdition_word hm
          have hs := spelled_norm_canonical g hw
          rw [h] at hs
          simp only [Bool.and_eq_true, Bool.not_eq_true'] at hs
          refine Or.inl ⟨?_, hs.2⟩
          intro hr
          rw [hr] at hs
          exact absurd hs.1 (by simp)
        | none =>
          simp only [hB] at h
          cases hC : scanMatch matchEditionDigits (lowerStr t0) with
          | some g =>
            simp only [hC] at h
            obtain ⟨s2, hm⟩ := scanMatch_some hC
            obtain ⟨hne, hdig⟩ := matchEditionDigits_digits hm
            rw [normalize_digits hne (fun c hc => List.all_eq_true.mp hdig c hc)] at h
            obtain rfl := Option.some.inj h
            exact Or.inl ⟨hne, hdig⟩
          | none =>
            simp only [hC] at h
            cases hD : scanMatch matchDigitsOrdEdDot (lowerStr t0) with
            | some g =>
              simp only [hD] at h
              obtain ⟨s2, hm⟩ := scanMatch_some hD
              obtain ⟨hne, hdig⟩ := matchDigitsOrdThen_digits hm
              rw [normalize_digits hne (fun c hc => List.all_eq_true.mp hdig c hc)] at h
              obtain rfl := Option.some.inj h
              exact Or.inl ⟨hne, hdig⟩
            | none =>
              simp only [hD] at h
              by_cases hrev : (containsSub "revised edition".toList (lowerStr t0) ||
                  containsSub "revised ed.".toList (lowerStr t0)) = true
              · rw [if_pos hrev] at h
                obtain rfl := Option.some.inj h
                exact Or.inr rfl
              · rw [if_neg hrev] at h
                exact absurd h (by simp)

/-- C10 witness: the canonicity theorem applied at a concrete text. -/
theorem c10_witness :
    (("3".toList ≠ []) ∧ ("3".toList).all Char.isDigit = true) ∨
      "3".toList = "revised".toList :=
  c10_extract_canonical (some ("A Book, 3rd Edition".toList)) ("3".toList) (by decide)

/-! ### Claim C8: the extractor's ordered patterns -/

/-- C8: `extract_edition_from_text` lower-cases its input, applies the four
patterns in priority order (a) digits+suffix before "edition", (b) spelled
ordinal before "edition", (c) "edition" then digits, (d) digits+suffix before
"ed.", stopping at the first match and normalizing the captured group; if none
match it returns "revised" exactly when "revised edition" or "revised ed."
occurs, else null — with the three quoted examples. -/
theorem c8_extract_patterns :
    extract_edition_from_text (some ("The Great Book, 3rd Edition".toList)) =
      some ("3".toList) ∧
    extract_edition_from_text (some ("Revised Edition".toList)) =
      some ("revised".toList) ∧
    extract_edition_from_text (some ("Plain Title".toList)) = none ∧
    (∀ t g, t ≠ [] → scanMatch matchDigitsOrdEdition (lowerStr t) = some g →
        extract_edition_from_text (some t) = normalize_edition (some g)) ∧
    (∀ t g, t ≠ [] → scanMatch matchDigitsOrdEdition (lowerStr t) = none →
        scanMatch matchSpelledEdition (lowerStr t) = some g →
        extract_edition_from_text (some t) = normalize_edition (some g)) ∧
    (∀ t g, t ≠ [] → scanMatch matchDigitsOrdEdition (lowerStr t) = none →
        scanMatch matchSpelledEdition (lowerStr t) = none →
        scanMatch matchEditionDigits (lowerStr t) = some g →
        extract_edition_from_text (some t) = normalize_edition (some g)) ∧
    (∀ t g, t ≠ [] → scanMatch matchDigitsOrdEdition (lowerStr t) = none →
        scanMatch matchSpelledEdition (lowerStr t) = none →
        scanMatch matchEditionDigits (lowerStr t) = none →
        scanMatch matchDigitsOrdEdDot (lowerStr t) = some g →
        extract_edition_from_text (some t) = normalize_edition (some g)) ∧
    (∀ t, t ≠ [] → scanMatch matchDigitsOrdEdition (lowerStr t) = none →
        scanMatch matchSpelledEdition (lowerStr t) = none →
        scanMatch matchEditionDigits (lowerStr t) = none →
        scanMatch matchDigitsOrdEdDot (lowerStr t) = none →
        extract_edition_from_text (some t) =
          (if containsSub "revised edition".toList (lowerStr t) ||
              containsSub "revised ed.".toList (lowerStr t) then
            some ("revised".toList)
          else none)) := by
  refine ⟨by decide, by decide, by decide, ?_, ?_, ?_, ?_, ?_⟩
  · intro t g ht hA
    rw [extract_edition_eq t ht, hA]
  · intro t g ht hA hB
    rw [extract_edition_eq t ht, hA, hB]
  · intro t g ht hA hB hC
    rw [extract_edition_eq t ht, hA, hB, hC]
  · intro t g ht hA hB hC hD
    rw [extract_edition_eq t ht, hA, hB, hC, hD]
  · intro t ht hA hB hC hD
    rw [extract_edition_eq t ht, hA, hB, hC, hD]

/-- C8 witness: the priority clause for pattern (a) at a concrete title. -/
theorem c8_witness :
    extract_edition_from_text (some ("Data, 2nd Edition".toList)) =
      normalize_edition (some ("2".toList)) :=
  c8_extract_patterns.2.2.2.1 ("Data, 2nd Edition".toList) ("2".toList)
    (by decide) (by decide)

/-! ### Helper lemmas: the Google candidate loop -/

lemma headD_mem {l : List (List Char)} (h : l ≠ []) : l.headD [] ∈ l := by
  cases l with
  | nil => exact absurd rfl h
  | cons a t => simp

lemma googleLoop_cons_high {st : List Char} {tg : Option (List Char)} {vi : GBVol}
    (rest : List GBVol) (r : SearchResult) (h : gbHighCond st tg vi) :
    googleLoop st tg (vi :: rest) r = (gbHighRes vi, true) := by
  obtain ⟨h1, h2, h3⟩ := h
  simp only [googleLoop]
  rw [if_neg h1, if_pos ⟨h2, h3⟩]

lemma googleLoop_firstHigh {st : List Char} {tg : Option (List Char)} {v : GBVol}
    (post : List GBVol) (hv : gbHighCond st tg v) :
    ∀ (pre : List GBVol) (r : SearchResult), (∀ u ∈ pre, ¬ gbHighCond st tg u) →
      googleLoop st tg (pre ++ v :: post) r = (gbHighRes v, true) := by
  intro pre
  induction pre with
  | nil => intro r _; exact googleLoop_cons_high post r hv
  | cons u pre ih =>
    intro r hpre
    have hu := hpre u (List.mem_cons_self u pre)
    have hpre2 : ∀ w ∈ pre, ¬ gbHighCond st tg w :=
      fun w hw => hpre w (List.mem_cons_of_mem u hw)
    simp only [List.cons_append, googleLoop]
    by_cases hi : gbIsbns u.industryIdentifiers = []
    · rw [if_pos hi]
      exact ih r hpre2
    · rw [if_neg hi]
      by_cases hh : editionFromTexts u.title u.subtitle u.description = tg ∧
          titleMatches (lowerStr st) (lowerStr (u.title.getD [])) = true
      · exact absurd ⟨hi, hh.1, hh.2⟩ hu
      · rw [if_neg hh]
        by_cases hm : titleMatches (lowerStr st) (lowerStr (u.title.getD [])) = true ∧
            truthy (editionFromTexts u.title u.subtitle u.description) = true
        · rw [if_pos hm]
          by_cases hr : r.suggested_isbn = []
          · rw [if_pos hr]; exact ih _ hpre2
          · rw [if_neg hr]; exact ih r hpre2
        · rw [if_neg hm]
          by_cases ht : titleMatches (lowerStr st) (lowerStr (u.title.getD [])) = true
          · rw [if_pos ht]
            by_cases hr : r.suggested_isbn = []
            · rw [if_pos hr]; exact ih _ hpre2
            · rw [if_neg hr]; exact ih r hpre2
          · rw [if_neg ht]; exact ih r hpre2

/-! ### Claim C4: first high-confidence match wins in the primary search -/

/-- C4: if among the first 10 primary-source candidates some candidate has a
non-empty ISBN list, a title match and a derived edition equal to the
normalized claim, then the search returns the high-confidence record of the
first such candidate — its first ISBN, confidence "high" — and the loop result
does not depend on anything after that candidate. -/
theorem c4_first_high_wins :
    ∀ (title : List Char) (edition : Option (List Char)) (items pre post : List GBVol)
      (v : GBVol),
      items.take 10 = pre ++ v :: post →
      (∀ u ∈ pre, ¬ gbHighCond title (normalize_edition edition) u) →
      gbHighCond title (normalize_edition edition) v →
      search_correct_isbn title edition (NetOutcome.success items) = gbHighRes v ∧
      (search_correct_isbn title edition (NetOutcome.success items)).confidence =
        "high".toList ∧
      (search_correct_isbn title edition (NetOutcome.success items)).suggested_isbn =
        (gbIsbns v.industryIdentifiers).headD [] ∧
      (∀ (post2 : List GBVol) (r : SearchResult),
        googleLoop title (normalize_edition edition) (pre ++ v :: post2) r =
          googleLoop title (normalize_edition edition) (pre ++ v :: post) r) := by
  intro title edition items pre post v htake hpre hv
  have hloop := googleLoop_firstHigh post hv
  have hitems : items ≠ [] := by
    intro hnil
    rw [hnil] at htake
    exact absurd htake.symm (by simp)
  have hsearch : search_correct_isbn title edition (NetOutcome.success items) =
      gbHighRes v := by
    simp only [search_correct_isbn]
    rw [if_neg hitems, htake, hloop pre initSearchResult hpre]
    rfl
  refine ⟨hsearch, by rw [hsearch]; rfl, by rw [hsearch]; rfl, ?_⟩
  intro post2 r
  rw [hloop pre r hpre, googleLoop_firstHigh post2 hv pre r hpre]

/-- C4 witness: a first candidate without ISBNs is passed over and the second,
matching candidate is accepted with confidence "high" and its first ISBN. -/
theorem c4_witness :
    (search_correct_isbn ("t".toList) (some ("2".toList))
        (NetOutcome.success
          [{ title := some ("t".toList), subtitle := none, description := none,
             publishedDate := none, industryIdentifiers := [] },
           { title := some ("t 2nd edition".toList), subtitle := none,
             description := none, publishedDate := none,
             industryIdentifiers := [⟨"ISBN_10".toList, "111".toList⟩] }])).confidence =
      "high".toList :=
  (c4_first_high_wins ("t".toList) (some ("2".toList)) _
    [{ title := some ("t".toList), subtitle := none, description := none,
       publishedDate := none, industryIdentifiers := [] }] []
    { title := some ("t 2nd edition".toList), subtitle := none, description := none,
      publishedDate := none, industryIdentifiers := [⟨"ISBN_10".toList, "111".toList⟩] }
    (by decide) (by decide) (by decide)).2.1

/-! ### Helper lemmas: confidence ranks and loop monotonicity -/

lemma confRank_low : confRank ("low".toList) = 0 := by decide

lemma confRank_high : confRank ("high".toList) = 2 := by decide

lemma confRank_le_two (c : List Char) : confRank c ≤ 2 := by
  unfold confRank
  split_ifs <;> omega

lemma srInv_init : srInv initSearchResult := ⟨fun _ => rfl, by decide⟩

lemma srInv_mk {m : SearchResult} (h1 : m.suggested_isbn ≠ [])
    (h2 : m.confidence ≠ "high".toList) : srInv m :=
  ⟨fun hemp => absurd hemp h1, h2⟩

lemma googleLoop_mono {st : List Char} {tg : Option (List Char)} :
    ∀ (items : List GBVol) (r : SearchResult),
      (∀ vi ∈ items, gbVolOk vi) → srInv r →
      confRank r.confidence ≤ confRank (googleLoop st tg items r).1.confidence ∧
      ((googleLoop st tg items r).1.suggested_isbn = [] →
        (googleLoop st tg items r).1.confidence = "low".toList) := by
  intro items
  induction items with
  | nil => intro r hok hinv; exact ⟨le_refl _, hinv.1⟩
  | cons vi rest ih =>
    intro r hok hinv
    have hokvi : gbVolOk vi := hok vi (List.mem_cons_self vi rest)
    have hokr : ∀ w ∈ rest, gbVolOk w := fun w hw => hok w (List.mem_cons_of_mem vi hw)
    simp only [googleLoop]
    by_cases hi : gbIsbns vi.industryIdentifiers = []
    · rw [if_pos hi]; exact ih r hokr hinv
    · rw [if_neg hi]
      have hheadne : (gbIsbns vi.industryIdentifiers).headD [] ≠ [] :=
        hokvi _ (headD_mem hi)
      by_cases hh : editionFromTexts vi.title vi.subtitle vi.description = tg ∧
          titleMatches (lowerStr st) (lowerStr (vi.title.getD [])) = true
      · rw [if_pos hh]
        refine ⟨?_, fun hemp => absurd hemp ?_⟩
        · have e1 : ((gbHighRes vi, true) : SearchResult × Bool).1.confidence =
              "high".toList := rfl
          rw [e1, confRank_high]
          exact confRank_le_two _
        · exact hheadne
      · rw [if_neg hh]
        by_cases hm : titleMatches (lowerStr st) (lowerStr (vi.title.getD [])) = true ∧
            truthy (editionFromTexts vi.title vi.subtitle vi.description) = true
        · rw [if_pos hm]
          by_cases hr : r.suggested_isbn = []
          · rw [if_pos hr]
            have hinv2 : srInv (gbMedRes tg vi) :=
              srInv_mk (by simpa [gbMedRes] using hheadne)
                (by rw [show (gbMedRes tg vi).confidence = "medium".toList from rfl]; decide)
            refine ⟨?_, (ih _ hokr hinv2).2⟩
            rw [hinv.1 hr, confRank_low]
            exact Nat.zero_le _
          · rw [if_neg hr]; exact ih r hokr hinv
        · rw [if_neg hm]
          by_cases ht : titleMatches (lowerStr st) (lowerStr (vi.title.getD [])) = true
          · rw [if_pos ht]
            by_cases hr : r.suggested_isbn = []
            · rw [if_pos hr]
              have hinv2 : srInv (gbLowRes vi) :=
                srInv_mk (by simpa [gbLowRes] using hheadne)
                  (by rw [show (gbLowRes vi).confidence = "low".toList from rfl]; decide)
              refine ⟨?_, (ih _ hokr hinv2).2⟩
              rw [hinv.1 hr, confRank_low]
              exact Nat.zero_le _
            · rw [if_neg hr]; exact ih r hokr hinv
          · rw [if_neg ht]; exact ih r hokr hinv

lemma searchPostGB_proj (tgt : Option (List Char)) (p : SearchResult × Bool) :
    (searchPostGB tgt p).confidence = p.1.confidence ∧
    (searchPostGB tgt p).suggested_isbn = p.1.suggested_isbn := by
  obtain ⟨r, b⟩ := p
  cases b with
  | true => exact ⟨rfl, rfl⟩
  | false =>
    simp only [searchPostGB]
    by_cases hre : r.suggested_isbn = []
    · rw [if_pos hre]; exact ⟨rfl, rfl⟩
    · rw [if_neg hre]; exact ⟨rfl, rfl⟩

lemma searchPostOL_proj (tgt : Option (List Char)) (p : SearchResult × Bool) :
    (searchPostOL tgt p).confidence = p.1.confidence ∧
    (searchPostOL tgt p).suggested_isbn = p.1.suggested_isbn := by
  obtain ⟨r, b⟩ := p
  cases b with
  | true => exact ⟨rfl, rfl⟩
  | false =>
    simp only [searchPostOL]
    by_cases hre : r.suggested_isbn = []
    · rw [if_pos hre]; exact ⟨rfl, rfl⟩
    · rw [if_neg hre]; exact ⟨rfl, rfl⟩

lemma search_isbn_low {title : List Char} {edition : Option (List Char)}
    {resp : NetOutcome (List GBVol)} (hok : gbRespOk resp) :
    (search_correct_isbn title edition resp).suggested_isbn = [] →
    (search_correct_isbn title edition resp).confidence = "low".toList := by
  cases resp with
  | httpError c m => intro _; rfl
  | urlError m => intro _; rfl
  | success items =>
    by_cases hit : items = []
    · subst hit; intro _; rfl
    · have hok2 : ∀ vi ∈ items.take 10, gbVolOk vi :=
        fun vi hvi => hok vi (List.take_subset 10 items hvi)
      have hmono := @googleLoop_mono title (normalize_edition edition)
        (items.take 10) initSearchResult hok2 srInv_init
      simp only [search_correct_isbn]
      rw [if_neg hit]
      intro hemp
      rw [(searchPostGB_proj _ _).2] at hemp
      rw [(searchPostGB_proj _ _).1]
      exact hmono.2 hemp

/-! ### Claim C5: confidence monotonicity of a repair pass -/

/-- C5 counterexample: when a candidate's first ISBN is the empty string, the
primary search returns confidence "high" with an empty suggested ISBN, the
fallback is then consulted, and its medium-confidence result replaces the
high one — the recorded "high" is downgraded. -/
theorem c5_counterexample :
    (search_correct_isbn ("t".toList) (some ("2".toList))
        (NetOutcome.success
          [{ title := some ("t 2nd edition".toList), subtitle := none,
             description := none, publishedDate := none,
             industryIdentifiers := [⟨"ISBN_10".toList, []⟩] }])).confidence =
      "high".toList ∧
    (repairSearch ("t".toList) (some ("2".toList))
        (NetOutcome.success
          [{ title := some ("t 2nd edition".toList), subtitle := none,
             description := none, publishedDate := none,
             industryIdentifiers := [⟨"ISBN_10".toList, []⟩] }])
        (NetOutcome.success [{ key := some ("k".toList), title := "t".toList }])
        (fun k => if k = "k".toList then
          some [{ edition_name := some ("3rd".toList), title := "t".toList,
                  isbn_13 := ["111".toList], isbn_10 := [] }]
        else none)).confidence = "medium".toList := by
  constructor <;> decide

/-- C5 (amended): provided every candidate ISBN string in the primary response
is non-empty, the running confidence of the Google candidate loop never
decreases, a "high" primary result is returned unchanged (the fallback is not
consulted), the confidence of the combined repair result is at least that of
the primary result, and the primary result is replaced only when the fallback
is "high" or supplies an ISBN while the primary has none. -/
theorem c5_confidence_monotone_amended :
    (∀ (st : List Char) (tg : Option (List Char)) (items : List GBVol)
       (r : SearchResult), (∀ vi ∈ items, gbVolOk vi) → srInv r →
       confRank r.confidence ≤ confRank (googleLoop st tg items r).1.confidence) ∧
    (∀ (title : List Char) (edition : Option (List Char))
       (gbResp : NetOutcome (List GBVol)) (olResp : NetOutcome (List OLDoc))
       (oracle : List Char → Option (List OLEntry)), gbRespOk gbResp →
       ((search_correct_isbn title edition gbResp).confidence = "high".toList →
         repairSearch title edition gbResp olResp oracle =
           search_correct_isbn title edition gbResp) ∧
       confRank (search_correct_isbn title edition gbResp).confidence ≤
         confRank (repairSearch title edition gbResp olResp oracle).confidence ∧
       (repairSearch title edition gbResp olResp oracle ≠
           search_correct_isbn title edition gbResp →
         (search_correct_isbn_openlibrary edition olResp oracle).confidence =
             "high".toList ∨
           ((search_correct_isbn_openlibrary edition olResp oracle).suggested_isbn ≠ [] ∧
            (search_correct_isbn title edition gbResp).suggested_isbn = []))) := by
  constructor
  · intro st tg items r hok hinv
    exact (googleLoop_mono items r hok hinv).1
  · intro title edition gbResp olResp oracle hok
    simp only [repairSearch]
    by_cases hc : (search_correct_isbn title edition gbResp).confidence = "low".toList ∨
        (search_correct_isbn title edition gbResp).suggested_isbn = []
    · rw [if_pos hc]
      have hlow : (search_correct_isbn title edition gbResp).confidence =
          "low".toList := by
        rcases hc with hc | hc
        · exact hc
        · exact search_isbn_low hok hc
      refine ⟨?_, ?_, ?_⟩
      · intro hhigh
        rw [hhigh] at hlow
        exact absurd hlow (by decide)
      · rw [hlow, confRank_low]
        exact Nat.zero_le _
      · by_cases ho : (search_correct_isbn_openlibrary edition olResp oracle).confidence =
            "high".toList ∨
            ((search_correct_isbn_openlibrary edition olResp oracle).suggested_isbn ≠ [] ∧
             (search_correct_isbn title edition gbResp).suggested_isbn = [])
        · rw [if_pos ho]
          exact fun _ => ho
        · rw [if_neg ho]
          exact fun hne => absurd rfl hne
    · rw [if_neg hc]
      exact ⟨fun _ => rfl, le_refl _, fun hne => absurd rfl hne⟩

/-- C5 witness: with well-formed ISBNs, a high-confidence primary result is
kept unchanged by the combination step. -/
theorem c5_witness :
    repairSearch ("t".toList) (some ("2".toList))
        (NetOutcome.success
          [{ title := some ("t 2nd edition".toList), subtitle := none,
             description := none, publishedDate := none,
             industryIdentifiers := [⟨"ISBN_10".toList, "111".toList⟩] }])
        (NetOutcome.success []) (fun _ => none) =
      search_correct_isbn ("t".toList) (some ("2".toList))
        (NetOutcome.success
          [{ title := some ("t 2nd edition".toList), subtitle := none,
             description := none, publishedDate := none,
             industryIdentifiers := [⟨"ISBN_10".toList, "111".toList⟩] }]) :=
  ((c5_confidence_monotone_amended.2 ("t".toList) (some ("2".toList)) _ _ _
    (by decide)).1) (by decide)

/-! ### Helper lemmas: the Open Library loops -/

lemma olEntriesLoop_cons_high {tg : Option (List Char)} {e : OLEntry}
    (rest : List OLEntry) (r : SearchResult) (h : olHighCond tg e) :
    olEntriesLoop tg (e :: rest) r = (olHighRes e, true) := by
  obtain ⟨h1, h2⟩ := h
  simp only [olEntriesLoop]
  rw [if_neg h1, if_pos h2]

lemma olEntriesLoop_firstHigh {tg : Option (List Char)} {e : OLEntry}
    (post : List OLEntry) (he : olHighCond tg e) :
    ∀ (pre : List OLEntry) (r : SearchResult), (∀ u ∈ pre, ¬ olHighCond tg u) →
      olEntriesLoop tg (pre ++ e :: post) r = (olHighRes e, true) := by
  intro pre
  induction pre with
  | nil => intro r _; exact olEntriesLoop_cons_high post r he
  | cons u pre ih =>
    intro r hpre
    have hu := hpre u (List.mem_cons_self u pre)
    have hpre2 : ∀ w ∈ pre, ¬ olHighCond tg w :=
      fun w hw => hpre w (List.mem_cons_of_mem u hw)
    simp only [List.cons_append, olEntriesLoop]
    by_cases hi : olEntryIsbns u = []
    · rw [if_pos hi]; exact ih r hpre2
    · rw [if_neg hi]
      by_cases hh : olEntryEd u = tg
      · exact absurd ⟨hi, hh⟩ hu
      · rw [if_neg hh]
        by_cases hm : truthy (olEntryEd u) = true ∧ r.suggested_isbn = []
        · rw [if_pos hm]; exact ih _ hpre2
        · rw [if_neg hm]; exact ih r hpre2

lemma olDocsLoop_oracle_cap {tg : Option (List Char)}
    {oracle : List Char → Option (List OLEntry)} :
    ∀ (docs : List OLDoc) (r : SearchResult),
      olDocsLoop tg oracle docs r =
        olDocsLoop tg (fun k => (oracle k).map (fun es => es.take 10)) docs r := by
  intro docs
  induction docs with
  | nil => intro r; rfl
  | cons d rest ih =>
    intro r
    simp only [olDocsLoop]
    cases hk : d.key with
    | none => exact ih r
    | some k =>
      dsimp only
      by_cases hke : k = []
      · rw [if_pos hke, if_pos hke]
        exact ih r
      · rw [if_neg hke, if_neg hke]
        cases ho : oracle k with
        | none =>
          dsimp only
          exact ih r
        | some entries =>
          simp only [Option.map_some']
          rw [List.take_take, Nat.min_self]
          cases hp : olEntriesLoop tg (entries.take 10) r with
          | mk r2 b =>
            cases b with
            | true => rfl
            | false =>
              dsimp only
              exact ih r2

/-! ### Claim C3: the fallback confidence rules -/

/-- C3 counterexample: the fallback search assigns "high" to an edition entry
whose edition matches the claim even though its title has no substring
relation with the search title, so the fallback does not apply the primary
source's title-match rule. -/
theorem c3_counterexample :
    (search_correct_isbn_openlibrary (some ("2nd".toList))
        (NetOutcome.success [{ key := some ("w1".toList),
                               title := "quantum gardening".toList }])
        (fun k => if k = "w1".toList then
          some [{ edition_name := some ("2nd ed".toList),
                  title := "quantum gardening".toList,
                  isbn_13 := ["9999999999999".toList], isbn_10 := [] }]
        else none)).confidence = "high".toList ∧
    titleMatches (lowerStr ("compilers".toList))
        (lowerStr ("quantum gardening".toList)) = false := by
  constructor <;> decide

/-- C3 (amended): the fallback search is capped at the first 5 works and the
first 10 editions per work, but its confidence rules ignore the title
entirely: "high" needs only a non-empty ISBN list and a derived edition equal
to the normalized claim (first such entry wins), and "medium" needs only a
truthy derived edition and no recorded suggestion. -/
theorem c3_fallback_rules_amended :
    (∀ (e : Option (List Char)) (docs : List OLDoc)
       (oracle : List Char → Option (List OLEntry)),
       search_correct_isbn_openlibrary e (NetOutcome.success docs) oracle =
         search_correct_isbn_openlibrary e (NetOutcome.success (docs.take 5)) oracle) ∧
    (∀ (e : Option (List Char)) (resp : NetOutcome (List OLDoc))
       (oracle : List Char → Option (List OLEntry)),
       search_correct_isbn_openlibrary e resp oracle =
         search_correct_isbn_openlibrary e resp
           (fun k => (oracle k).map (fun es => es.take 10))) ∧
    (∀ (tg : Option (List Char)) (pre post : List OLEntry) (e : OLEntry)
       (r : SearchResult), (∀ u ∈ pre, ¬ olHighCond tg u) → olHighCond tg e →
       olEntriesLoop tg (pre ++ e :: post) r = (olHighRes e, true)) ∧
    (∀ (tg : Option (List Char)) (e : OLEntry) (rest : List OLEntry)
       (r : SearchResult), olEntryIsbns e ≠ [] → olEntryEd e ≠ tg →
       truthy (olEntryEd e) = true → r.suggested_isbn = [] →
       olEntriesLoop tg (e :: rest) r = olEntriesLoop tg rest (olMedRes tg e)) := by
  refine ⟨?_, ?_, ?_, ?_⟩
  · intro e docs oracle
    by_cases hd : docs = []
    · subst hd; rfl
    · have hd5 : docs.take 5 ≠ [] := by
        cases docs with
        | nil => exact absurd rfl hd
        | cons a t => simp
      simp only [search_correct_isbn_openlibrary]
      rw [if_neg hd, if_neg hd5, List.take_take, Nat.min_self]
  · intro e resp oracle
    cases resp with
    | httpError c m => rfl
    | urlError m => rfl
    | success docs =>
      by_cases hd : docs = []
      · subst hd; rfl
      · simp only [search_correct_isbn_openlibrary]
        rw [if_neg hd, if_neg hd, olDocsLoop_oracle_cap]
  · intro tg pre post e r hpre he
    exact olEntriesLoop_firstHigh post he pre r hpre
  · intro tg e rest r h1 h2 h3 h4
    simp only [olEntriesLoop]
    rw [if_neg h1, if_neg h2, if_pos ⟨h3, h4⟩]

/-- C3 witness: the first-match clause of the amended theorem at a concrete
entry list (an entry without ISBNs is skipped, the matching one wins). -/
theorem c3_witness :
    olEntriesLoop (some ("2".toList))
        ([{ edition_name := none, title := "x".toList, isbn_13 := [], isbn_10 := [] }] ++
          { edition_name := some ("2nd".toList), title := "y".toList,
            isbn_13 := ["123".toList], isbn_10 := [] } ::
            [{ edition_name := some ("2nd".toList), title := "z".toList,
               isbn_13 := ["456".toList], isbn_10 := [] }]) initSearchResult =
      (olHighRes { edition_name := some ("2nd".toList), title := "y".toList,
                   isbn_13 := ["123".toList], isbn_10 := [] }, true) :=
  c3_fallback_rules_amended.2.2.1 (some ("2".toList)) _ _ _ _
    (by decide) (by decide)

/-! ### Claim C9: the repair applier's frame -/

/-- C9: `apply_repairs` filters to high-confidence non-empty-ISBN suggestions;
for each such suggestion, if no row matches the (title, current ISBN) pair the
catalog is unchanged, and otherwise exactly the first matching row is updated
— only its ISBN field changes, every row before it and after it (duplicates
included) is untouched, and scanning stops. -/
theorem c9_apply_frame :
    (∀ (s : RepairSuggestion) (rows : List CatalogRow),
        (∀ b ∈ rows, ¬ (b.title = s.title ∧ b.isbn = s.currentIsbn)) →
        applyOne s rows = (rows, false)) ∧
    (∀ (s : RepairSuggestion) (pre post : List CatalogRow) (m : CatalogRow),
        (∀ b ∈ pre, ¬ (b.title = s.title ∧ b.isbn = s.currentIsbn)) →
        m.title = s.title → m.isbn = s.currentIsbn →
        applyOne s (pre ++ m :: post) =
          (pre ++ { m with isbn := s.suggestedIsbn } :: post, true)) ∧
    (∀ (s : RepairSuggestion) (suggs : List RepairSuggestion),
        s ∈ highFilter suggs ↔
          s ∈ suggs ∧ s.confidence = "high".toList ∧ s.suggestedIsbn ≠ []) ∧
    (∀ (suggs : List RepairSuggestion) (books : List CatalogRow),
        apply_repairs suggs books = applyAll (highFilter suggs) books) := by
  refine ⟨?_, ?_, ?_, fun suggs books => rfl⟩
  · intro s rows h
    induction rows with
    | nil => rfl
    | cons b rest ih =>
      simp only [applyOne]
      rw [if_neg (h b (List.mem_cons_self b rest))]
      rw [ih (fun x hx => h x (List.mem_cons_of_mem b hx))]
  · intro s pre post m hpre hm1 hm2
    induction pre with
    | nil =>
      simp only [List.nil_append, applyOne]
      rw [if_pos ⟨hm1, hm2⟩]
    | cons b rest ih =>
      have hb := hpre b (List.mem_cons_self b rest)
      simp only [List.cons_append, applyOne, List.append_eq]
      rw [if_neg hb]
      rw [ih (fun x hx => hpre x (List.mem_cons_of_mem b hx))]
  · intro s suggs
    simp [highFilter, List.mem_filter]

/-- C9 witness: the first of two identical matching rows is updated (ISBN
only) and the duplicate after it is untouched. -/
theorem c9_witness :
    applyOne { title := "b".toList, currentIsbn := "1".toList,
               suggestedIsbn := "2".toList, confidence := "high".toList }
        ([{ title := "a".toList, isbn := "1".toList, rest := [] }] ++
          { title := "b".toList, isbn := "1".toList,
            rest := [("Author".toList, "x".toList)] } ::
            [{ title := "b".toList, isbn := "1".toList, rest := [] }]) =
      ([{ title := "a".toList, isbn := "1".toList, rest := [] }] ++
        { title := "b".toList, isbn := "2".toList,
          rest := [("Author".toList, "x".toList)] } ::
          [{ title := "b".toList, isbn := "1".toList, rest := [] }], true) :=
  c9_apply_frame.2.1 _ _ _ _ (by decide) (by decide) (by decide)
